import Mathlib

/-!
# Verification of `flowrates.py` (flow-rate unit converter)

This file is a shallow embedding of the conversion/formatting core of
`src/flowrates.py` together with proofs about it.

Modelling conventions:

* Python floats (IEEE-754 binary64) are modelled as exact rationals `ℚ`
  together with the correct rounding function `roundDouble`, which performs
  round-to-nearest, ties-to-even, with the subnormal exponent clamp at
  `2^(-1022)` exactly as IEEE-754 binary64 prescribes.  A rational `q` is a
  finite double iff `roundDouble q = q` and `|q| ≤ (2^53 - 1) * 2^971`.
  Each Python arithmetic operation on floats is the exact rational operation
  followed by `roundDouble` (`fmul`, `fdiv`).  Overflow to infinity is not
  modelled: `roundDouble` is faithful to binary64 for results of magnitude
  below `2^1024` (the fuel `2400` in `floorLog2` covers all magnitudes in
  `[2^(-1100), 2^1300]`, far beyond the double range used by any theorem
  below); every theorem in this file only ever evaluates it there.
* The float literal `1e-6` of the source denotes the binary64 value nearest
  to 10⁻⁶, i.e. `roundDouble (1/10^6)` (`c6` below); likewise `1e-9` (`c9`).
  `1_000.0` and `60.0` are exactly representable.
* `NaN` has no rational representative; the argument of `fmt` is an
  `Option ℚ` whose `none` case models a NaN input (`pd.isna`).  The
  conversion pipeline itself never produces NaN from finite input, so no
  other function needs the extra point.
* Python `float x / float y` raises `ZeroDivisionError` iff `y == 0`;
  `fdiv` returns `none` exactly there.  Multiplication never raises.
* The expression `10 ** (-thresh)` in `fmt` is an int-to-negative-int power,
  which Python evaluates in floating point; for every `thresh` in the UI
  range 1..12 its value is the binary64 nearest 10^(-thresh) (checked
  against CPython), modelled by `negPow10`.
* Strings are handled by explicit `List Char` computations.  `pyStrip`
  models `str.strip()` on the ASCII/Latin-1 whitespace characters (the
  rarely-typed astral Unicode space characters are outside the model);
  `pySplitlines` models `str.splitlines()`; `stripCommas` models
  `.replace(",", "")`; `parseFloat` models the builtin `float(str)` on
  finite decimal literals (sign, digits, optional fraction dot, optional
  exponent, surrounding whitespace).  The exotic inputs `float()` also
  accepts ("inf", "nan", underscore separators, non-ASCII decimal digits)
  are outside the model; no claim depends on them.
* The module-level Streamlit code is modelled as pure functions: the
  sidebar widgets become an explicit `FormatConfig` argument, the
  single-value block becomes `convertSingle`, the batch block becomes
  `batchParse` / `dfBatch` / `batchRender`, and what the page displays is
  captured by the `BatchView` outcome type.

The Batteries `Rat` arithmetic operations are `@[irreducible]`, which only
affects elaborator-level reduction (the kernel is unaffected); we restore
the default transparency so that `decide` can evaluate concrete rational
arithmetic.
-/

set_option allowUnsafeReducibility true in
attribute [semireducible] Rat.add Rat.mul Rat.inv Rat.sub Rat.div

set_option maxRecDepth 1000000
set_option exponentiation.threshold 5000

/-! ## Exact binary64 rounding on `ℚ` -/

/-- `2^k` as a rational, for an integer exponent `k`. -/
def pow2 (k : ℤ) : ℚ :=
  if 0 ≤ k then ((2 ^ k.toNat : ℕ) : ℚ) else (((2 : ℕ) ^ (-k).toNat : ℕ) : ℚ)⁻¹

/-- `10^k` as a rational, for an integer exponent `k`. -/
def pow10 (k : ℤ) : ℚ :=
  if 0 ≤ k then ((10 ^ k.toNat : ℕ) : ℚ) else (((10 : ℕ) ^ (-k).toNat : ℕ) : ℚ)⁻¹

/-- Floor of a non-negative rational, as a natural number. -/
def floorN (q : ℚ) : ℕ := q.num.toNat / q.den

/-- Round a non-negative rational to the nearest natural number,
ties to even. -/
def rheN (x : ℚ) : ℕ :=
  if x - (floorN x : ℚ) < 1/2 then floorN x
  else if (1 : ℚ)/2 < x - (floorN x : ℚ) then floorN x + 1
  else if floorN x % 2 = 0 then floorN x else floorN x + 1

/-- Fuel-bounded base-2 logarithm on `ℕ`: for `1 ≤ n < 2^fuel` it returns
`⌊log₂ n⌋`. -/
def log2fuel : ℕ → ℕ → ℕ
  | 0, _ => 0
  | f+1, n => if n ≤ 1 then 0 else log2fuel f (n / 2) + 1

/-- `⌊log₂ a⌋` for positive rationals `a ≥ 2^(-1100)` (and of magnitude at
most `2^1300`, far beyond the binary64 range). -/
def floorLog2 (a : ℚ) : ℤ := (log2fuel 2400 (floorN (a * pow2 1100)) : ℤ) - 1100

/-- Maximum of two integers, as a directly computable `if`. -/
def iMax (a b : ℤ) : ℤ := if a ≤ b then b else a

/-- Absolute value on `ℚ`, as a directly computable `if`. -/
def qAbs (q : ℚ) : ℚ := if q < 0 then -q else q

/-- Correct rounding of an exact rational to IEEE-754 binary64
(round-to-nearest, ties-to-even), with the subnormal exponent clamp at
`-1022`; the result is returned as the exact rational value of the rounded
double.  Faithful for all magnitudes below `2^1024` (overflow to infinity
is outside the model). -/
def roundDouble (q : ℚ) : ℚ :=
  if q = 0 then 0
  else
    let a := qAbs q
    let e : ℤ := iMax (floorLog2 a) (-1022)
    let m : ℕ := rheN (a * pow2 (52 - e))
    let r : ℚ := (m : ℚ) * pow2 (e - 52)
    if q < 0 then -r else r

/-- Python float multiplication: exact product, correctly rounded. -/
def fmul (a b : ℚ) : ℚ := roundDouble (a * b)

/-- Python float division: raises `ZeroDivisionError` (modelled as `none`)
iff the divisor is zero, otherwise the exact quotient, correctly rounded. -/
def fdiv (a b : ℚ) : Option ℚ := if b = 0 then none else some (roundDouble (a / b))

/-- The value of the Python float literal `1e-6`: the binary64 nearest 10⁻⁶. -/
def c6 : ℚ := roundDouble (1 / 1000000)

/-- The value of the Python float literal `1e-9`: the binary64 nearest 10⁻⁹. -/
def c9 : ℚ := roundDouble (1 / 1000000000)

/-- Largest finite binary64 value. -/
def maxDouble : ℚ := ((2 ^ 53 - 1 : ℕ) : ℚ) * pow2 971

/-- `q` is (the exact value of) a finite IEEE-754 binary64 number. -/
def IsDouble (q : ℚ) : Prop := roundDouble q = q ∧ qAbs q ≤ maxDouble

instance (q : ℚ) : Decidable (IsDouble q) := by unfold IsDouble; infer_instance

/-! ## Decimal rendering (Python `format` specifiers `.Nf` and `.Ne`)

CPython renders a float by correctly rounding its exact binary value to the
requested number of decimal digits, ties to even; `fixedString` and
`sciString` implement exactly that on the rational representative. -/

/-- Fuel-bounded base-10 logarithm on `ℕ`. -/
def log10fuel : ℕ → ℕ → ℕ
  | 0, _ => 0
  | f+1, n => if n < 10 then 0 else log10fuel f (n / 10) + 1

/-- `⌊log₁₀ a⌋` for positive rationals `a ≥ 10^(-400)` (covers the whole
binary64 range). -/
def floorLog10 (a : ℚ) : ℤ := (log10fuel 900 (floorN (a * pow10 400)) : ℤ) - 400

/-- Decimal digits of a natural number (fuel-bounded, enough for any number
below `10^2000`). -/
def natDigitsAux : ℕ → ℕ → List Char → List Char
  | 0, _, acc => acc
  | f+1, n, acc => if n = 0 then acc else natDigitsAux f (n / 10) (Nat.digitChar (n % 10) :: acc)

/-- Decimal string of a natural number. -/
def natStr (n : ℕ) : String := if n = 0 then "0" else String.mk (natDigitsAux 2000 n [])

/-- First `n` characters of a string. -/
def strTake (s : String) (n : ℕ) : String := String.mk (s.data.take n)

/-- All but the first `n` characters of a string. -/
def strDrop (s : String) (n : ℕ) : String := String.mk (s.data.drop n)

/-- Character count of a string. -/
def strLen (s : String) : ℕ := s.data.length

/-- Python `f"{x:.df}"`: fixed-point rendering with exactly `d` digits after
the decimal point (no point at all if `d = 0`), correctly rounded from the
exact value, ties to even.  (`-0.0` has no rational representative, so the
sign of a zero result follows the sign of `q`.) -/
def fixedString (q : ℚ) (d : ℕ) : String :=
  let a := qAbs q
  let m := rheN (a * 10 ^ d)
  let ds := natStr m
  let ds2 := if strLen ds ≤ d then String.mk (List.replicate (d + 1 - strLen ds) '0') ++ ds else ds
  (if q < 0 then "-" else "") ++ strTake ds2 (strLen ds2 - d) ++
    (if d = 0 then "" else "." ++ strDrop ds2 (strLen ds2 - d))

/-- Two-or-more-digit decimal exponent field of Python scientific notation. -/
def expField (k : ℤ) : String :=
  (if k < 0 then "-" else "+") ++ (if k.natAbs < 10 then "0" ++ natStr k.natAbs else natStr k.natAbs)

/-- Python `f"{x:.de}"`: scientific-notation rendering with `d` digits after
the decimal point of the mantissa, correctly rounded from the exact value,
ties to even. -/
def sciString (q : ℚ) (d : ℕ) : String :=
  if q = 0 then
    (if d = 0 then "0" else "0." ++ String.mk (List.replicate d '0')) ++ "e+00"
  else
    let a := qAbs q
    let k := floorLog10 a
    let m0 := rheN (a * pow10 ((d : ℤ) - k))
    let m := if m0 = 10 ^ (d + 1) then 10 ^ d else m0
    let k2 := if m0 = 10 ^ (d + 1) then k + 1 else k
    let ds := natStr m
    (if q < 0 then "-" else "") ++ strTake ds 1 ++
      (if d = 0 then "" else "." ++ strDrop ds 1) ++ "e" ++ expField k2

/-- The value of the Python expression `10 ** (-thresh)`: evaluated in
floating point, yielding the binary64 nearest `10^(-thresh)` for every
`thresh` in the UI range 1..12. -/
def negPow10 (t : ℕ) : ℚ := roundDouble (pow10 (-(t : ℤ)))

/-- The sidebar formatting options of the source (`decimals`,
`sci_for_large`, `thresh`), reframed as an explicit record per the spec's
`FormatConfig`. -/
structure FormatConfig where
  decimals : ℕ
  sci : Bool
  thresh : ℕ
deriving DecidableEq

/-- `fmt` from the source:

```
def fmt(x: float) -> str:
    if pd.isna(x):
        return ""
    if sci_for_large and (abs(x) > 10**thresh or (x != 0 and abs(x) < 10**(-thresh))):
        return f"{x:.{decimals}e}"
    return f"{x:.{decimals}f}"
```

`none` models a NaN argument; `10**thresh` is exact integer arithmetic
compared exactly against the float, `10**(-thresh)` is the float
`negPow10 thresh`. -/
def fmt (x : Option ℚ) (cfg : FormatConfig) : String :=
  match x with
  | none => ""
  | some q =>
    if cfg.sci = true ∧ (qAbs q > (10 : ℚ) ^ cfg.thresh ∨ (q ≠ 0 ∧ qAbs q < negPow10 cfg.thresh)) then
      sciString q cfg.decimals
    else
      fixedString q cfg.decimals

/-! ## The unit registry (`UNITS`, `DISPLAY_UNITS`, `ALIAS`) -/

/-- A registry entry: the pair of conversion closures of one `UNITS` entry. -/
structure UnitDef where
  to_base : ℚ → Option ℚ
  from_base : ℚ → Option ℚ

/-- The `UNITS` dict of the source (base unit `L/min`), in insertion order:

```
"L/min":   to_base x = x,                 from_base x = x
"mL/min":  to_base x = x / 1_000.0,       from_base x = x * 1_000.0
"µL/min":  to_base x = x * 1e-6,          from_base x = x / 1e-6
"uL/min":  (alias, same lambdas)
"nL/min":  to_base x = x * 1e-9,          from_base x = x / 1e-9
"L/h":     to_base x = x / 60.0,          from_base x = x * 60.0
"mL/h":    to_base x = (x / 1_000.0) / 60.0, from_base x = x * 60.0 * 1_000.0
"µL/h":    to_base x = (x * 1e-6) / 60.0,    from_base x = x * 60.0 / 1e-6
"uL/h":    (alias, same lambdas)
``` -/
def UNITS : List (String × UnitDef) :=
  [ ("L/min", ⟨fun x => some x, fun x => some x⟩)
  , ("mL/min", ⟨fun x => fdiv x 1000, fun x => some (fmul x 1000)⟩)
  , ("µL/min", ⟨fun x => some (fmul x c6), fun x => fdiv x c6⟩)
  , ("uL/min", ⟨fun x => some (fmul x c6), fun x => fdiv x c6⟩)
  , ("nL/min", ⟨fun x => some (fmul x c9), fun x => fdiv x c9⟩)
  , ("L/h", ⟨fun x => fdiv x 60, fun x => some (fmul x 60)⟩)
  , ("mL/h", ⟨fun x => (fdiv x 1000).bind (fun y => fdiv y 60), fun x => some (fmul (fmul x 60) 1000)⟩)
  , ("µL/h", ⟨fun x => fdiv (fmul x c6) 60, fun x => fdiv (fmul x 60) c6⟩)
  , ("uL/h", ⟨fun x => fdiv (fmul x c6) 60, fun x => fdiv (fmul x 60) c6⟩)
  ]

/-- `DISPLAY_UNITS` of the source: the fixed reporting order. -/
def DISPLAY_UNITS : List String :=
  ["L/min", "mL/min", "µL/min", "nL/min", "L/h", "mL/h", "µL/h"]

/-- `ALIAS` of the source: ASCII spellings of the micro units. -/
def ALIAS : List (String × String) := [("uL/min", "µL/min"), ("uL/h", "µL/h")]

/-- `ALIAS.get(u, u)` of the source. -/
def aliasGet (u : String) : String := (ALIAS.lookup u).getD u

/-- Effectful map over a list: Python list comprehension whose body may
raise (the first exception aborts the whole comprehension). -/
def mapO (f : α → Option β) : List α → Option (List β)
  | [] => some []
  | a :: l => (f a).bind fun b => (mapO f l).map (b :: ·)

/-- One row of the single-value result table: `(Unit, Value, Formatted)`. -/
abbrev SingleRow := String × ℚ × String

/-- The single-value conversion block of the source (lines 53-59): look up
the source unit (a `KeyError` on an unknown symbol is `none`), convert to
base, fan out to every display unit, and format each value; also returns
`display_in_unit = ALIAS.get(in_unit, in_unit)`. -/
def convertSingle (value : ℚ) (inUnit : String) (cfg : FormatConfig) :
    Option (String × List SingleRow) :=
  (UNITS.lookup inUnit).bind fun u =>
    (u.to_base value).bind fun base =>
      (mapO (fun ou =>
        (UNITS.lookup ou).bind fun ud =>
          (ud.from_base base).map fun c => (ou, c, fmt (some c) cfg)) DISPLAY_UNITS).bind
        fun rows => some (aliasGet inUnit, rows)

/-! ## Python string helpers -/

/-- The characters `str.strip()` removes (ASCII/Latin-1 whitespace). -/
def isPyWS (c : Char) : Bool :=
  c = ' ' ∨ c = '\t' ∨ c = '\n' ∨ c = '\r' ∨ c = Char.ofNat 11 ∨ c = Char.ofNat 12 ∨
    c = Char.ofNat 28 ∨ c = Char.ofNat 29 ∨ c = Char.ofNat 30 ∨ c = Char.ofNat 31 ∨
    c = Char.ofNat 0x85 ∨ c = Char.ofNat 0xA0

/-- Python `str.strip()`. -/
def pyStrip (s : String) : String :=
  String.mk (((s.data.dropWhile isPyWS).reverse.dropWhile isPyWS).reverse)

/-- Python `.replace(",", "")`: remove every comma. -/
def stripCommas (s : String) : String := String.mk (s.data.filter (fun c => !(c == ',')))

/-- The line-boundary characters of `str.splitlines()`. -/
def isLineBreak (c : Char) : Bool :=
  c = '\n' ∨ c = '\r' ∨ c = Char.ofNat 11 ∨ c = Char.ofNat 12 ∨ c = Char.ofNat 28 ∨
    c = Char.ofNat 29 ∨ c = Char.ofNat 30 ∨ c = Char.ofNat 0x85 ∨
    c = Char.ofNat 0x2028 ∨ c = Char.ofNat 0x2029

/-- Worker for `pySplitlines`; `acc` holds the current line reversed. -/
def splitlinesAux : List Char → List Char → List (List Char)
  | [], acc => if acc.isEmpty then [] else [acc.reverse]
  | '\r' :: '\n' :: rest, acc => acc.reverse :: splitlinesAux rest []
  | c :: rest, acc =>
    if isLineBreak c then acc.reverse :: splitlinesAux rest []
    else splitlinesAux rest (c :: acc)

/-- Python `str.splitlines()`. -/
def pySplitlines (s : String) : List String := (splitlinesAux s.data []).map String.mk

/-- Numeric value of a list of decimal digit characters. -/
def digitsVal (l : List Char) : ℕ := l.foldl (fun n c => n * 10 + (c.toNat - 48)) 0

/-- Signed digit run after the `e` of a float literal. -/
def parseExpSigned (r : List Char) : Option ℤ :=
  let (sg, r2) : ℤ × List Char :=
    match r with
    | '+' :: t => (1, t)
    | '-' :: t => (-1, t)
    | _ => (1, r)
  let ed := r2.takeWhile Char.isDigit
  if ed.isEmpty ∨ ¬ (r2.dropWhile Char.isDigit).isEmpty then none
  else some (sg * (digitsVal ed : ℤ))

/-- Exponent part of a float literal: empty input means exponent 0; else
`e`/`E`, an optional sign and a nonempty digit run ending the string. -/
def parseExpPart : List Char → Option ℤ
  | [] => some 0
  | 'e' :: r => parseExpSigned r
  | 'E' :: r => parseExpSigned r
  | _ => none

/-- The builtin `float(str)` on finite decimal literals: optional
surrounding whitespace, optional sign, a digit run with an optional
fractional part (at least one digit overall), and an optional exponent;
anything else raises `ValueError` (`none`).  The resulting decimal value is
correctly rounded to binary64. -/
def parseFloat (s : String) : Option ℚ :=
  let cs := (pyStrip s).data
  let (sgn, cs1) : ℚ × List Char :=
    match cs with
    | '+' :: r => (1, r)
    | '-' :: r => (-1, r)
    | _ => (1, cs)
  let ip := cs1.takeWhile Char.isDigit
  let r1 := cs1.dropWhile Char.isDigit
  let (fp, r2) : List Char × List Char :=
    match r1 with
    | '.' :: r => (r.takeWhile Char.isDigit, r.dropWhile Char.isDigit)
    | _ => ([], r1)
  if ip.isEmpty ∧ fp.isEmpty then none
  else
    (parseExpPart r2).map fun ex =>
      roundDouble (sgn * (digitsVal (ip ++ fp) : ℚ) * pow10 (ex - (fp.length : ℤ)))

/-! ## The batch block (source lines 75-106) -/

/-- The per-line cleanup of the batch loop: `line.strip().replace(",", "")`. -/
def cleanLine (line : String) : String := stripCommas (pyStrip line)

/-- The batch parsing loop (source lines 76-84), starting at line number
`i`: cleaned-empty lines are skipped, parse failures append a warning
`(line number, original raw line)`, successes append the value. -/
def batchParseAux : List String → ℕ → List ℚ × List (ℕ × String)
  | [], _ => ([], [])
  | line :: rest, i =>
    let (vs, ws) := batchParseAux rest (i + 1)
    let s := cleanLine line
    if s = "" then (vs, ws)
    else
      match parseFloat s with
      | some v => (v :: vs, ws)
      | none => (vs, (i, line) :: ws)

/-- The batch parsing loop with 1-based line numbering, returning
`(values, warnings)`. -/
def batchParse (lines : List String) : List ℚ × List (ℕ × String) :=
  batchParseAux lines 1

/-- A cell of the batch dataframe: raw numeric or formatted text. -/
inductive Cell where
  | num (q : ℚ)
  | str (s : String)
deriving DecidableEq

/-- The `df_batch` dataframe (source lines 87-94) as its list of columns in
insertion order: `Input`, `Input Unit`, then for each display unit the raw
numeric column and the `(fmt)` column. -/
def dfBatch (values : List ℚ) (batchUnit : String) (cfg : FormatConfig) :
    Option (List (String × List Cell)) :=
  (UNITS.lookup batchUnit).bind fun u =>
    (mapO u.to_base values).bind fun baseVals =>
      (mapO (fun ou =>
        (UNITS.lookup ou).bind fun ud =>
          (mapO ud.from_base baseVals).map fun conv =>
            [(ou, conv.map Cell.num),
             (ou ++ " (fmt)", conv.map (fun x => Cell.str (fmt (some x) cfg)))])
        DISPLAY_UNITS).bind fun unitCols =>
        some ([("Input", values.map Cell.num),
               ("Input Unit", values.map (fun _ => Cell.str (aliasGet batchUnit)))] ++
          unitCols.flatten)

/-- Comma-join of a list of strings. -/
def joinComma : List String → String
  | [] => ""
  | [s] => s
  | s :: rest => s ++ "," ++ joinComma rest

/-- The header line of `df_batch.to_csv(index=False)`: the column names in
dataframe order, comma-separated (none of the names needs CSV quoting). -/
def csvHeader (df : List (String × List Cell)) : String := joinComma (df.map Prod.fst)

/-- What the batch section of the page shows. -/
inductive BatchView where
  /-- `raw.strip()` was falsy: the whole block is skipped, nothing rendered. -/
  | blank : BatchView
  /-- No line parsed: the `"No valid numeric lines found."` info message,
  after the per-line warnings. -/
  | noValid (warnings : List (ℕ × String)) : BatchView
  /-- At least one line parsed: the dataframe (offered as CSV), after the
  per-line warnings. -/
  | table (df : List (String × List Cell)) (warnings : List (ℕ × String)) : BatchView
deriving DecidableEq

/-- The whole batch block (source lines 75-106) as a function of the raw
text-area content, the selected batch unit and the formatting options. -/
def batchRender (raw : String) (batchUnit : String) (cfg : FormatConfig) : Option BatchView :=
  if pyStrip raw = "" then some .blank
  else
    let (values, warnings) := batchParse (pySplitlines raw)
    if values.isEmpty then some (.noValid warnings)
    else (dfBatch values batchUnit cfg).map (fun df => .table df warnings)

/-- 1-based enumeration of a list (Python `enumerate(lines, start=1)`). -/
def enumFrom : ℕ → List String → List (ℕ × String)
  | _, [] => []
  | i, l :: ls => (i, l) :: enumFrom (i + 1) ls

/-- Proof infrastructure: `y` approximates the ideal value `t` to within
`k` compounded binary64 rounding errors. -/
def Near (k : ℕ) (t y : ℚ) : Prop :=
  (1 - pow2 (-53)) ^ k * t ≤ y ∧ y ≤ (1 + pow2 (-53)) ^ k * t

/-! ## Proofs -/

/-! ## Helper lemmas: floors and rounding -/

theorem num_toNat_cast {q : ℚ} (h : 0 ≤ q) : ((q.num.toNat : ℕ) : ℚ) = q * (q.den : ℚ) := by
  have hnum : 0 ≤ q.num := Rat.num_nonneg.mpr h
  have h0 : ((q.num.toNat : ℤ) : ℚ) = ((q.num : ℤ) : ℚ) :=
    congrArg (fun z : ℤ => (z : ℚ)) (Int.toNat_of_nonneg hnum)
  have h1 : ((q.num.toNat : ℕ) : ℚ) = ((q.num : ℤ) : ℚ) := by push_cast at h0 ⊢; exact h0
  have hd : ((q.den : ℚ)) ≠ 0 := by
    have := q.den_pos; positivity
  have key := Rat.num_div_den q
  rw [div_eq_iff hd] at key
  rw [h1]; exact key

theorem floorN_le {q : ℚ} (h : 0 ≤ q) : (floorN q : ℚ) ≤ q := by
  have hd : (0 : ℚ) < (q.den : ℚ) := by exact_mod_cast q.den_pos
  have hmul : ((floorN q : ℕ) : ℚ) * (q.den : ℚ) ≤ ((q.num.toNat : ℕ) : ℚ) := by
    exact_mod_cast Nat.div_mul_le_self q.num.toNat q.den
  rw [num_toNat_cast h] at hmul
  exact le_of_mul_le_mul_right hmul hd

theorem lt_floorN_add_one {q : ℚ} (h : 0 ≤ q) : q < (floorN q : ℚ) + 1 := by
  have hd : (0 : ℚ) < (q.den : ℚ) := by exact_mod_cast q.den_pos
  have hlt : q.num.toNat < q.den * (floorN q) + q.den := by
    have h1 := Nat.div_add_mod q.num.toNat q.den
    have h2 : q.num.toNat % q.den < q.den := Nat.mod_lt _ q.den_pos
    unfold floorN
    linarith
  have hltq : q * (q.den : ℚ) < ((floorN q : ℚ) + 1) * (q.den : ℚ) := by
    rw [← num_toNat_cast h]
    calc ((q.num.toNat : ℕ) : ℚ) < ((q.den * (floorN q) + q.den : ℕ) : ℚ) := by exact_mod_cast hlt
      _ = ((floorN q : ℚ) + 1) * (q.den : ℚ) := by push_cast; ring
  exact lt_of_mul_lt_mul_right hltq hd.le

theorem rheN_ge {x : ℚ} (h : 0 ≤ x) : x - 1/2 ≤ (rheN x : ℚ) := by
  have h1 := floorN_le h
  have h2 := lt_floorN_add_one h
  simp only [rheN]
  split_ifs with hc1 hc2 hc3 <;> push_cast <;> linarith

theorem rheN_le {x : ℚ} (h : 0 ≤ x) : (rheN x : ℚ) ≤ x + 1/2 := by
  have h1 := floorN_le h
  have h2 := lt_floorN_add_one h
  simp only [rheN]
  split_ifs with hc1 hc2 hc3 <;> push_cast <;> linarith

/-! ## Helper lemmas: powers of two -/

theorem pow2_eq_zpow (k : ℤ) : pow2 k = (2 : ℚ) ^ k := by
  unfold pow2
  split_ifs with h
  · have hk : (2 : ℚ) ^ k = (2 : ℚ) ^ (k.toNat : ℕ) := by
      rw [← zpow_natCast (2 : ℚ) k.toNat, Int.toNat_of_nonneg h]
    rw [hk]; push_cast; ring
  · have h' : (0 : ℤ) ≤ -k := by omega
    have hk : (2 : ℚ) ^ k = ((2 : ℚ) ^ ((-k).toNat : ℕ))⁻¹ := by
      have hh : (2 : ℚ) ^ ((-k).toNat : ℕ) = (2 : ℚ) ^ (-k : ℤ) := by
        rw [← zpow_natCast (2 : ℚ) (-k).toNat, Int.toNat_of_nonneg h']
      rw [hh, ← zpow_neg, neg_neg]
    rw [hk]; push_cast; ring

theorem pow2_pos (k : ℤ) : 0 < pow2 k := by
  rw [pow2_eq_zpow]; positivity

theorem pow2_add (a b : ℤ) : pow2 (a + b) = pow2 a * pow2 b := by
  rw [pow2_eq_zpow, pow2_eq_zpow, pow2_eq_zpow, zpow_add₀ (by norm_num : (2:ℚ) ≠ 0)]

theorem pow2_le_pow2 {a b : ℤ} (h : a ≤ b) : pow2 a ≤ pow2 b := by
  rw [pow2_eq_zpow, pow2_eq_zpow]
  exact zpow_le_zpow_right₀ (by norm_num) h

theorem pow2_lt_pow2_iff {a b : ℤ} : pow2 a < pow2 b ↔ a < b := by
  rw [pow2_eq_zpow, pow2_eq_zpow]
  exact zpow_lt_zpow_iff_right₀ (by norm_num)

/-! ## Helper lemmas: binary logarithm and the rounding error bound -/

theorem log2fuel_spec : ∀ f n, 1 ≤ n → n < 2 ^ f →
    2 ^ (log2fuel f n) ≤ n ∧ n < 2 ^ (log2fuel f n + 1) := by
  intro f
  induction f with
  | zero => intro n h1 h2; simp at h2; omega
  | succ f ih =>
    intro n h1 h2
    simp only [log2fuel]
    split_ifs with hle
    · have hn : n = 1 := le_antisymm hle h1
      subst hn; simp
    · have h2n : 2 ≤ n := by omega
      have hrec := ih (n / 2) (by omega) (by
        have : n < 2 ^ f * 2 := by rw [← pow_succ]; exact h2
        omega)
      obtain ⟨hl, hr⟩ := hrec
      constructor
      · calc 2 ^ (log2fuel f (n / 2) + 1) = 2 ^ (log2fuel f (n / 2)) * 2 := by rw [pow_succ]
          _ ≤ (n / 2) * 2 := by omega
          _ ≤ n := by omega
      · calc n < (n / 2) * 2 + 2 := by omega
          _ ≤ 2 ^ (log2fuel f (n / 2) + 1) * 2 := by omega
          _ = 2 ^ (log2fuel f (n / 2) + 1 + 1) := (pow_succ 2 (log2fuel f (n / 2) + 1)).symm

theorem pow2_natCast (n : ℕ) : pow2 (n : ℤ) = ((2 ^ n : ℕ) : ℚ) := by
  rw [pow2_eq_zpow, zpow_natCast]; push_cast; ring

theorem pow2_zero : pow2 0 = 1 := by rw [pow2_eq_zpow]; norm_num

theorem floorLog2_spec {a : ℚ} (h1 : pow2 (-1090) ≤ a) (h2 : a ≤ pow2 1090) :
    pow2 (floorLog2 a) ≤ a ∧ a < pow2 (floorLog2 a + 1) := by
  have ha : 0 < a := lt_of_lt_of_le (pow2_pos _) h1
  have ht0 : 0 < a * pow2 1100 := mul_pos ha (pow2_pos _)
  have htge : pow2 10 ≤ a * pow2 1100 := by
    have h := mul_le_mul_of_nonneg_right h1 (pow2_pos 1100).le
    rw [← pow2_add] at h
    norm_num at h
    exact h
  have htle : a * pow2 1100 ≤ pow2 2190 := by
    have h := mul_le_mul_of_nonneg_right h2 (pow2_pos 1100).le
    rw [← pow2_add] at h
    norm_num at h
    exact h
  set n := floorN (a * pow2 1100) with hn
  have hncast : (n : ℚ) ≤ a * pow2 1100 := floorN_le ht0.le
  have hncast2 : a * pow2 1100 < (n : ℚ) + 1 := lt_floorN_add_one ht0.le
  have hn1 : 1 ≤ n := by
    by_contra hc
    have hn0 : (n : ℚ) = 0 := by
      have : n = 0 := by omega
      simp [this]
    rw [hn0] at hncast2
    have h10 : (1 : ℚ) < pow2 10 := by rw [pow2_eq_zpow]; norm_num
    linarith
  have hn2 : n < 2 ^ 2400 := by
    have hq : (n : ℚ) ≤ ((2 ^ 2190 : ℕ) : ℚ) := by
      rw [← pow2_natCast]
      exact_mod_cast le_trans hncast htle
    have : n ≤ 2 ^ 2190 := by exact_mod_cast hq
    calc n ≤ 2 ^ 2190 := this
      _ < 2 ^ 2400 := by norm_num
  obtain ⟨hL, hR⟩ := log2fuel_spec 2400 n hn1 hn2
  set L := log2fuel 2400 n with hLdef
  have hfl : floorLog2 a = (L : ℤ) - 1100 := by
    simp only [floorLog2, ← hn, ← hLdef]
  have hLa : pow2 (L : ℤ) ≤ a * pow2 1100 := by
    calc pow2 (L : ℤ) = ((2 ^ L : ℕ) : ℚ) := pow2_natCast L
      _ ≤ (n : ℚ) := by exact_mod_cast hL
      _ ≤ a * pow2 1100 := hncast
  have hLb : a * pow2 1100 < pow2 ((L : ℤ) + 1) := by
    calc a * pow2 1100 < (n : ℚ) + 1 := hncast2
      _ ≤ ((2 ^ (L + 1) : ℕ) : ℚ) := by exact_mod_cast hR
      _ = pow2 ((L : ℤ) + 1) := by rw [← pow2_natCast]; push_cast; ring
  rw [hfl]
  constructor
  · have heq : pow2 (L : ℤ) = pow2 ((L : ℤ) - 1100) * pow2 1100 := by
      rw [← pow2_add]; ring_nf
    rw [heq] at hLa
    exact (mul_le_mul_right (pow2_pos 1100)).mp hLa
  · have heq : pow2 ((L : ℤ) + 1) = pow2 ((L : ℤ) - 1100 + 1) * pow2 1100 := by
      rw [← pow2_add]; ring_nf
    rw [heq] at hLb
    exact (mul_lt_mul_right (pow2_pos 1100)).mp hLb

theorem qAbs_of_nonneg {q : ℚ} (h : 0 ≤ q) : qAbs q = q := by
  simp only [qAbs, if_neg (not_lt.mpr h)]

theorem qAbs_eq_abs (q : ℚ) : qAbs q = |q| := by
  simp only [qAbs]
  split_ifs with h
  · rw [abs_of_neg h]
  · rw [abs_of_nonneg (not_lt.mp h)]

/-- For positive arguments in the normal range the clamp is inactive and
`roundDouble` is the rounded significand rescaled. -/
theorem roundDouble_pos_eq {q : ℚ} (h0 : 0 < q) (hfl : -1022 < floorLog2 q) :
    roundDouble q =
      (rheN (q * pow2 (52 - floorLog2 q)) : ℚ) * pow2 (floorLog2 q - 52) := by
  have hne : q ≠ 0 := ne_of_gt h0
  have hnl : ¬ q < 0 := not_lt.mpr h0.le
  have hmax : iMax (floorLog2 q) (-1022) = floorLog2 q := by
    simp only [iMax]
    split_ifs with hc
    · omega
    · rfl
  simp only [roundDouble, if_neg hne, qAbs_of_nonneg h0.le, hmax, if_neg hnl]

theorem half_eq_pow2 : (1/2 : ℚ) = pow2 (-1) := by
  rw [pow2_eq_zpow]; norm_num

/-- The central binary64 rounding error bound: one half-ulp absolute, hence
`2^(-53)` relative, for positive values well inside the normal range. -/
theorem roundDouble_rel {q : ℚ} (h0 : 0 < q) (h1 : pow2 (-1000) ≤ q) (h2 : q ≤ pow2 1000) :
    q - pow2 (-53) * q ≤ roundDouble q ∧ roundDouble q ≤ q + pow2 (-53) * q := by
  obtain ⟨hfl1, hfl2⟩ := floorLog2_spec (a := q)
    (le_trans (pow2_le_pow2 (by norm_num)) h1)
    (le_trans h2 (pow2_le_pow2 (by norm_num)))
  have hflge : -1000 ≤ floorLog2 q := by
    have hlt : pow2 (-1000) < pow2 (floorLog2 q + 1) := lt_of_le_of_lt h1 hfl2
    have := pow2_lt_pow2_iff.mp hlt
    omega
  have heq := roundDouble_pos_eq h0 (by omega)
  set e := floorLog2 q with he
  set s := q * pow2 (52 - e) with hs
  have hposc : (0 : ℚ) < pow2 (e - 52) := pow2_pos _
  have hs0 : 0 ≤ s := mul_nonneg h0.le (pow2_pos _).le
  have hm1 : s - 1/2 ≤ (rheN s : ℚ) := rheN_ge hs0
  have hm2 : (rheN s : ℚ) ≤ s + 1/2 := rheN_le hs0
  have hqs : s * pow2 (e - 52) = q := by
    rw [hs, mul_assoc, ← pow2_add]
    have hz : 52 - e + (e - 52) = 0 := by ring
    rw [hz, pow2_zero, mul_one]
  have hhalf : (1/2 : ℚ) * pow2 (e - 52) = pow2 e * pow2 (-53) := by
    rw [half_eq_pow2, ← pow2_add, ← pow2_add]
    congr 1
    ring
  have hfin : pow2 e * pow2 (-53) ≤ q * pow2 (-53) :=
    mul_le_mul_of_nonneg_right hfl1 (pow2_pos _).le
  constructor
  · rw [heq]
    have hstep : (s - 1/2) * pow2 (e - 52) ≤ (rheN s : ℚ) * pow2 (e - 52) :=
      mul_le_mul_of_nonneg_right hm1 hposc.le
    have hexp : (s - 1/2) * pow2 (e - 52) = q - pow2 e * pow2 (-53) := by
      rw [sub_mul, hqs, hhalf]
    rw [hexp] at hstep
    linarith
  · rw [heq]
    have hstep : (rheN s : ℚ) * pow2 (e - 52) ≤ (s + 1/2) * pow2 (e - 52) :=
      mul_le_mul_of_nonneg_right hm2 hposc.le
    have hexp : (s + 1/2) * pow2 (e - 52) = q + pow2 e * pow2 (-53) := by
      rw [add_mul, hqs, hhalf]
    rw [hexp] at hstep
    linarith

theorem pow2_neg53_val : pow2 (-53) = 1/9007199254740992 := by decide

theorem near_zero (t : ℚ) : Near 0 t t := by simp [Near]

theorem Near.mulc {k : ℕ} {t y : ℚ} (h : Near k t y) (c : ℚ) (hc : 0 ≤ c) :
    Near k (t * c) (y * c) := by
  obtain ⟨hl, hr⟩ := h
  constructor
  · calc (1 - pow2 (-53)) ^ k * (t * c) = ((1 - pow2 (-53)) ^ k * t) * c := by ring
      _ ≤ y * c := mul_le_mul_of_nonneg_right hl hc
  · calc y * c ≤ ((1 + pow2 (-53)) ^ k * t) * c := mul_le_mul_of_nonneg_right hr hc
      _ = (1 + pow2 (-53)) ^ k * (t * c) := by ring

theorem Near.round {k : ℕ} {t y : ℚ} (h : Near k t y) (hk : k ≤ 3) (ht0 : 0 < t)
    (htl : pow2 (-980) ≤ t) (hth : t ≤ pow2 980) : Near (k + 1) t (roundDouble y) := by
  obtain ⟨hl, hr⟩ := h
  have hu2 : (0 : ℚ) ≤ 1 - pow2 (-53) := by rw [pow2_neg53_val]; norm_num
  have hu3 : (0 : ℚ) ≤ 1 + pow2 (-53) := by rw [pow2_neg53_val]; norm_num
  have hlow3 : (1/2 : ℚ) ≤ (1 - pow2 (-53)) ^ k := by
    have h3 : ((1 : ℚ) - pow2 (-53)) ^ 3 ≤ (1 - pow2 (-53)) ^ k :=
      pow_le_pow_of_le_one hu2 (by rw [pow2_neg53_val]; norm_num) hk
    have hn : (1/2 : ℚ) ≤ (1 - pow2 (-53)) ^ 3 := by rw [pow2_neg53_val]; norm_num
    linarith
  have hhigh3 : (1 + pow2 (-53)) ^ k ≤ 2 := by
    have h3 : ((1 : ℚ) + pow2 (-53)) ^ k ≤ (1 + pow2 (-53)) ^ 3 :=
      pow_le_pow_right₀ (by rw [pow2_neg53_val]; norm_num) hk
    have hn : ((1 : ℚ) + pow2 (-53)) ^ 3 ≤ 2 := by rw [pow2_neg53_val]; norm_num
    linarith
  have hy0 : 0 < y := by
    have hp : (0 : ℚ) < (1 - pow2 (-53)) ^ k * t := by
      apply mul_pos _ ht0
      apply pow_pos
      rw [pow2_neg53_val]; norm_num
    linarith
  have hyl : pow2 (-1000) ≤ y := by
    have ha : (1/2 : ℚ) * t ≤ (1 - pow2 (-53)) ^ k * t :=
      mul_le_mul_of_nonneg_right hlow3 ht0.le
    have hb : (1/2 : ℚ) * pow2 (-980) ≤ (1/2) * t := by linarith
    have hc : pow2 (-1000) ≤ (1/2 : ℚ) * pow2 (-980) := by
      rw [half_eq_pow2, ← pow2_add]
      exact pow2_le_pow2 (by norm_num)
    linarith
  have hyh : y ≤ pow2 1000 := by
    have ha : (1 + pow2 (-53)) ^ k * t ≤ 2 * t := mul_le_mul_of_nonneg_right hhigh3 ht0.le
    have hb : (2 : ℚ) * t ≤ 2 * pow2 980 := by linarith
    have hc : (2 : ℚ) * pow2 980 ≤ pow2 1000 := by
      rw [show (2 : ℚ) = pow2 1 from by rw [pow2_eq_zpow]; norm_num, ← pow2_add]
      exact pow2_le_pow2 (by norm_num)
    linarith
  obtain ⟨hr1, hr2⟩ := roundDouble_rel hy0 hyl hyh
  constructor
  · have hstep : (1 - pow2 (-53)) * ((1 - pow2 (-53)) ^ k * t) ≤ (1 - pow2 (-53)) * y :=
      mul_le_mul_of_nonneg_left hl hu2
    calc (1 - pow2 (-53)) ^ (k + 1) * t = (1 - pow2 (-53)) * ((1 - pow2 (-53)) ^ k * t) := by ring
      _ ≤ (1 - pow2 (-53)) * y := hstep
      _ ≤ roundDouble y := by nlinarith [hr1]
  · have hstep : (1 + pow2 (-53)) * y ≤ (1 + pow2 (-53)) * ((1 + pow2 (-53)) ^ k * t) :=
      mul_le_mul_of_nonneg_left hr hu3
    calc roundDouble y ≤ (1 + pow2 (-53)) * y := by nlinarith [hr2]
      _ ≤ (1 + pow2 (-53)) * ((1 + pow2 (-53)) ^ k * t) := hstep
      _ = (1 + pow2 (-53)) ^ (k + 1) * t := by ring

theorem Near.dist {k : ℕ} {x y : ℚ} (h : Near k x y) (hk : k ≤ 4) (hx : 0 < x) :
    qAbs (y - x) ≤ 1/1000000000 * x := by
  obtain ⟨hl, hr⟩ := h
  have hu2 : (0 : ℚ) ≤ 1 - pow2 (-53) := by rw [pow2_neg53_val]; norm_num
  have h4u : (1 + pow2 (-53)) ^ k ≤ 1 + 1/1000000000 := by
    have h4 : ((1 : ℚ) + pow2 (-53)) ^ k ≤ (1 + pow2 (-53)) ^ 4 :=
      pow_le_pow_right₀ (by rw [pow2_neg53_val]; norm_num) hk
    have hn : ((1 : ℚ) + pow2 (-53)) ^ 4 ≤ 1 + 1/1000000000 := by
      rw [pow2_neg53_val]; norm_num
    linarith
  have h4l : 1 - 1/1000000000 ≤ ((1 : ℚ) - pow2 (-53)) ^ k := by
    have h4 : ((1 : ℚ) - pow2 (-53)) ^ 4 ≤ (1 - pow2 (-53)) ^ k :=
      pow_le_pow_of_le_one hu2 (by rw [pow2_neg53_val]; norm_num) hk
    have hn : (1 : ℚ) - 1/1000000000 ≤ (1 - pow2 (-53)) ^ 4 := by
      rw [pow2_neg53_val]; norm_num
    linarith
  have hup : y - x ≤ 1/1000000000 * x := by
    have : (1 + pow2 (-53)) ^ k * x ≤ (1 + 1/1000000000) * x :=
      mul_le_mul_of_nonneg_right h4u hx.le
    nlinarith
  have hdn : x - y ≤ 1/1000000000 * x := by
    have : (1 - 1/1000000000 : ℚ) * x ≤ (1 - pow2 (-53)) ^ k * x :=
      mul_le_mul_of_nonneg_right h4l hx.le
    nlinarith
  simp only [qAbs]
  split_ifs with hneg
  · linarith
  · linarith

theorem roundDouble_zero : roundDouble 0 = 0 := by simp [roundDouble]

theorem fdiv_eq {a b : ℚ} (hb : b ≠ 0) : fdiv a b = some (roundDouble (a / b)) := by
  simp [fdiv, hb]

theorem range_mul {x c : ℚ} (hx1 : pow2 (-900) ≤ x) (hx2 : x ≤ pow2 900)
    (hc1 : pow2 (-40) ≤ c) (hc2 : c ≤ pow2 40) :
    pow2 (-980) ≤ x * c ∧ x * c ≤ pow2 980 := by
  have hx0 : (0 : ℚ) ≤ x := le_trans (pow2_pos _).le hx1
  have hc0 : (0 : ℚ) ≤ c := le_trans (pow2_pos _).le hc1
  constructor
  · calc pow2 (-980) ≤ pow2 (-940) := pow2_le_pow2 (by norm_num)
      _ = pow2 (-900) * pow2 (-40) := by rw [← pow2_add]; norm_num
      _ ≤ x * c := mul_le_mul hx1 hc1 (pow2_pos _).le hx0
  · calc x * c ≤ pow2 900 * pow2 40 := mul_le_mul hx2 hc2 hc0 (pow2_pos _).le
      _ = pow2 940 := by rw [← pow2_add]; norm_num
      _ ≤ pow2 980 := pow2_le_pow2 (by norm_num)

/-- Round trip through one rounded scaling each way, net exact factor one. -/
theorem roundtrip_two (x a b : ℚ) (hab : a * b = 1) (ha1 : pow2 (-40) ≤ a)
    (ha2 : a ≤ pow2 40) (hb : 0 ≤ b) (hx1 : pow2 (-900) ≤ x) (hx2 : x ≤ pow2 900) :
    qAbs (roundDouble (roundDouble (x * a) * b) - x) ≤ 1/1000000000 * x := by
  have hx0 : 0 < x := lt_of_lt_of_le (pow2_pos _) hx1
  have ha0 : 0 < a := lt_of_lt_of_le (pow2_pos _) ha1
  have hxr1 : pow2 (-980) ≤ x := le_trans (pow2_le_pow2 (by norm_num)) hx1
  have hxr2 : x ≤ pow2 980 := le_trans hx2 (pow2_le_pow2 (by norm_num))
  obtain ⟨hr1, hr2⟩ := range_mul hx1 hx2 ha1 ha2
  have n1 : Near 1 (x * a) (roundDouble (x * a)) :=
    (near_zero (x * a)).round (by norm_num) (mul_pos hx0 ha0) hr1 hr2
  have n1b : Near 1 (x * a * b) (roundDouble (x * a) * b) := n1.mulc b hb
  have ht : x * a * b = x := by rw [mul_assoc, hab, mul_one]
  rw [ht] at n1b
  have n2 : Near 2 x (roundDouble (roundDouble (x * a) * b)) :=
    n1b.round (by norm_num) hx0 hxr1 hxr2
  exact n2.dist (by norm_num) hx0

/-- Round trip through two rounded scalings each way, net exact factor one. -/
theorem roundtrip_four (x a b c d : ℚ) (habcd : a * b * c * d = 1)
    (ha1 : pow2 (-40) ≤ a) (ha2 : a ≤ pow2 40)
    (hab1 : pow2 (-40) ≤ a * b) (hab2 : a * b ≤ pow2 40)
    (habc1 : pow2 (-40) ≤ a * b * c) (habc2 : a * b * c ≤ pow2 40)
    (hb : 0 ≤ b) (hc : 0 ≤ c) (hd : 0 ≤ d)
    (hx1 : pow2 (-900) ≤ x) (hx2 : x ≤ pow2 900) :
    qAbs (roundDouble (roundDouble (roundDouble (roundDouble (x * a) * b) * c) * d) - x) ≤
      1/1000000000 * x := by
  have hx0 : 0 < x := lt_of_lt_of_le (pow2_pos _) hx1
  have ha0 : 0 < a := lt_of_lt_of_le (pow2_pos _) ha1
  have hab0 : 0 < a * b := lt_of_lt_of_le (pow2_pos _) hab1
  have habc0 : 0 < a * b * c := lt_of_lt_of_le (pow2_pos _) habc1
  have hxr1 : pow2 (-980) ≤ x := le_trans (pow2_le_pow2 (by norm_num)) hx1
  have hxr2 : x ≤ pow2 980 := le_trans hx2 (pow2_le_pow2 (by norm_num))
  obtain ⟨hra1, hra2⟩ := range_mul hx1 hx2 ha1 ha2
  obtain ⟨hrab1, hrab2⟩ := range_mul hx1 hx2 hab1 hab2
  obtain ⟨hrabc1, hrabc2⟩ := range_mul hx1 hx2 habc1 habc2
  have n1 : Near 1 (x * a) (roundDouble (x * a)) :=
    (near_zero (x * a)).round (by norm_num) (mul_pos hx0 ha0) hra1 hra2
  have n1b : Near 1 (x * (a * b)) (roundDouble (x * a) * b) := by
    have h := n1.mulc b hb
    rw [show x * a * b = x * (a * b) from by ring] at h
    exact h
  have n2 : Near 2 (x * (a * b)) (roundDouble (roundDouble (x * a) * b)) :=
    n1b.round (by norm_num) (mul_pos hx0 hab0)
      (by rw [show x * (a * b) = x * (a * b) from rfl]; exact hrab1)
      (by exact hrab2)
  have n2c : Near 2 (x * (a * b * c)) (roundDouble (roundDouble (x * a) * b) * c) := by
    have h := n2.mulc c hc
    rw [show x * (a * b) * c = x * (a * b * c) from by ring] at h
    exact h
  have n3 : Near 3 (x * (a * b * c))
      (roundDouble (roundDouble (roundDouble (x * a) * b) * c)) :=
    n2c.round (by norm_num) (mul_pos hx0 habc0) hrabc1 hrabc2
  have n3d : Near 3 x (roundDouble (roundDouble (roundDouble (x * a) * b) * c) * d) := by
    have h := n3.mulc d hd
    rw [show x * (a * b * c) * d = x * (a * b * c * d) from by ring, habcd, mul_one] at h
    exact h
  have n4 : Near 4 x
      (roundDouble (roundDouble (roundDouble (roundDouble (x * a) * b) * c) * d)) :=
    n3d.round (by norm_num) hx0 hxr1 hxr2
  exact n4.dist (by norm_num) hx0

theorem c6_ne : c6 ≠ 0 := by decide
theorem c9_ne : c9 ≠ 0 := by decide
theorem c6_lb : pow2 (-40) ≤ c6 := by decide
theorem c6_ub : c6 ≤ pow2 40 := by decide
theorem c9_lb : pow2 (-40) ≤ c9 := by decide
theorem c9_ub : c9 ≤ pow2 40 := by decide
theorem c6inv_nonneg : (0 : ℚ) ≤ c6⁻¹ := by decide
theorem c9inv_nonneg : (0 : ℚ) ≤ c9⁻¹ := by decide
theorem c6_mul_inv : c6 * c6⁻¹ = 1 := mul_inv_cancel₀ c6_ne
theorem c9_mul_inv : c9 * c9⁻¹ = 1 := mul_inv_cancel₀ c9_ne

theorem pow2_le_one {k : ℤ} (h : k ≤ 0) : pow2 k ≤ 1 := by
  calc pow2 k ≤ pow2 0 := pow2_le_pow2 h
    _ = 1 := pow2_zero

theorem one_le_pow2 {k : ℤ} (h : 0 ≤ k) : 1 ≤ pow2 k := by
  calc (1 : ℚ) = pow2 0 := pow2_zero.symm
    _ ≤ pow2 k := pow2_le_pow2 h

/-- C2 is false as stated: the smallest positive subnormal double `2^(-1074)`
is a finite non-negative float, but converting it to base through `mL/min`
underflows to exactly `0`, so the `mL/min` round trip returns `0`, which is
not within `1e-9` relative tolerance of the input. -/
theorem C2_counterexample :
    IsDouble (pow2 (-1074)) ∧ 0 ≤ pow2 (-1074) ∧
    ((UNITS.lookup "mL/min").map
      (fun u => (u.to_base (pow2 (-1074))).bind u.from_base) = some (some 0)) ∧
    ¬ qAbs (0 - pow2 (-1074)) ≤ 1/1000000000 * pow2 (-1074) := by
  refine ⟨by decide, by decide, by decide, by decide⟩

/-- C2 (amended): for every unit in the registry (aliases included) and
every non-negative `x` that is zero or of magnitude between `2^(-900)` and
`2^900` (comfortably covering every value of practical interest, but
excluding the subnormal underflow range where the original claim fails),
`from_base (to_base x)` succeeds and is within `1e-9` relative tolerance of
`x`. -/
theorem C2_amended : ∀ p ∈ UNITS, ∀ x : ℚ,
    (x = 0 ∨ (pow2 (-900) ≤ x ∧ x ≤ pow2 900)) →
    ∃ y, (p.2.to_base x).bind p.2.from_base = some y ∧
      qAbs (y - x) ≤ 1/1000000000 * x := by
  intro p hp x hx
  have h1000 : (1000 : ℚ) ≠ 0 := by norm_num
  have h60 : (60 : ℚ) ≠ 0 := by norm_num
  simp only [UNITS, List.mem_cons, List.not_mem_nil, or_false] at hp
  rcases hp with rfl | rfl | rfl | rfl | rfl | rfl | rfl | rfl | rfl
  · -- L/min
    rcases hx with rfl | ⟨hx1, hx2⟩
    · exact ⟨0, rfl, by norm_num [qAbs]⟩
    · refine ⟨x, rfl, ?_⟩
      have hx0 : (0 : ℚ) < x := lt_of_lt_of_le (pow2_pos _) hx1
      simp only [sub_self, qAbs, if_neg (lt_irrefl 0)]
      positivity
  · -- mL/min
    rcases hx with rfl | ⟨hx1, hx2⟩
    · have hbind : (fdiv (0 : ℚ) 1000).bind (fun y => some (fmul y 1000)) = some 0 := by
        rw [fdiv_eq h1000]
        simp [fmul, roundDouble_zero]
      exact ⟨0, hbind, by norm_num [qAbs]⟩
    · have hbind : (fdiv x 1000).bind (fun y => some (fmul y 1000))
          = some (fmul (roundDouble (x / 1000)) 1000) := by
        rw [fdiv_eq h1000, Option.some_bind]
      refine ⟨_, hbind, ?_⟩
      have h := roundtrip_two x (1000 : ℚ)⁻¹ 1000 (by norm_num) (by decide) (by decide)
        (by norm_num) hx1 hx2
      simp only [fmul, div_eq_mul_inv]
      exact h
  · -- µL/min
    rcases hx with rfl | ⟨hx1, hx2⟩
    · have hbind : (some (fmul (0 : ℚ) c6)).bind (fun y => fdiv y c6) = some 0 := by
        rw [show fmul (0 : ℚ) c6 = 0 from by simp [fmul, roundDouble_zero],
          Option.some_bind, fdiv_eq c6_ne]
        simp [roundDouble_zero]
      exact ⟨0, hbind, by norm_num [qAbs]⟩
    · have hbind : (some (fmul x c6)).bind (fun y => fdiv y c6)
          = some (roundDouble (fmul x c6 / c6)) := by
        rw [Option.some_bind, fdiv_eq c6_ne]

      refine ⟨_, hbind, ?_⟩
      have h := roundtrip_two x c6 c6⁻¹ c6_mul_inv c6_lb c6_ub c6inv_nonneg hx1 hx2
      simp only [fmul, div_eq_mul_inv]
      exact h
  · -- uL/min (alias)
    rcases hx with rfl | ⟨hx1, hx2⟩
    · have hbind : (some (fmul (0 : ℚ) c6)).bind (fun y => fdiv y c6) = some 0 := by
        rw [show fmul (0 : ℚ) c6 = 0 from by simp [fmul, roundDouble_zero],
          Option.some_bind, fdiv_eq c6_ne]
        simp [roundDouble_zero]
      exact ⟨0, hbind, by norm_num [qAbs]⟩
    · have hbind : (some (fmul x c6)).bind (fun y => fdiv y c6)
          = some (roundDouble (fmul x c6 / c6)) := by
        rw [Option.some_bind, fdiv_eq c6_ne]

      refine ⟨_, hbind, ?_⟩
      have h := roundtrip_two x c6 c6⁻¹ c6_mul_inv c6_lb c6_ub c6inv_nonneg hx1 hx2
      simp only [fmul, div_eq_mul_inv]
      exact h
  · -- nL/min
    rcases hx with rfl | ⟨hx1, hx2⟩
    · have hbind : (some (fmul (0 : ℚ) c9)).bind (fun y => fdiv y c9) = some 0 := by
        rw [show fmul (0 : ℚ) c9 = 0 from by simp [fmul, roundDouble_zero],
          Option.some_bind, fdiv_eq c9_ne]
        simp [roundDouble_zero]
      exact ⟨0, hbind, by norm_num [qAbs]⟩
    · have hbind : (some (fmul x c9)).bind (fun y => fdiv y c9)
          = some (roundDouble (fmul x c9 / c9)) := by
        rw [Option.some_bind, fdiv_eq c9_ne]
      refine ⟨_, hbind, ?_⟩
      have h := roundtrip_two x c9 c9⁻¹ c9_mul_inv c9_lb c9_ub c9inv_nonneg hx1 hx2
      simp only [fmul, div_eq_mul_inv]
      exact h
  · -- L/h
    rcases hx with rfl | ⟨hx1, hx2⟩
    · have hbind : (fdiv (0 : ℚ) 60).bind (fun y => some (fmul y 60)) = some 0 := by
        rw [fdiv_eq h60]
        simp [fmul, roundDouble_zero]
      exact ⟨0, hbind, by norm_num [qAbs]⟩
    · have hbind : (fdiv x 60).bind (fun y => some (fmul y 60))
          = some (fmul (roundDouble (x / 60)) 60) := by
        rw [fdiv_eq h60, Option.some_bind]
      refine ⟨_, hbind, ?_⟩
      have h := roundtrip_two x (60 : ℚ)⁻¹ 60 (by norm_num) (by decide) (by decide)
        (by norm_num) hx1 hx2
      simp only [fmul, div_eq_mul_inv]
      exact h
  · -- mL/h
    rcases hx with rfl | ⟨hx1, hx2⟩
    · have hbind : ((fdiv (0 : ℚ) 1000).bind (fun y => fdiv y 60)).bind
          (fun y => some (fmul (fmul y 60) 1000)) = some 0 := by
        rw [fdiv_eq h1000, show roundDouble ((0 : ℚ) / 1000) = 0 from by
          simp [roundDouble_zero], Option.some_bind, fdiv_eq h60,
          show roundDouble ((0 : ℚ) / 60) = 0 from by simp [roundDouble_zero]]
        simp [fmul, roundDouble_zero]
      exact ⟨0, hbind, by norm_num [qAbs]⟩
    · have hbind : ((fdiv x 1000).bind (fun y => fdiv y 60)).bind
          (fun y => some (fmul (fmul y 60) 1000))
          = some (fmul (fmul (roundDouble (roundDouble (x / 1000) / 60)) 60) 1000) := by
        rw [fdiv_eq h1000, Option.some_bind, fdiv_eq h60, Option.some_bind]
      refine ⟨_, hbind, ?_⟩
      have h := roundtrip_four x (1000 : ℚ)⁻¹ (60 : ℚ)⁻¹ 60 1000 (by field_simp; try ring)
        (by decide) (by decide) (by decide) (by decide) (by decide) (by decide)
        (by norm_num) (by norm_num) (by norm_num) hx1 hx2
      simp only [fmul, div_eq_mul_inv]
      exact h
  · -- µL/h
    rcases hx with rfl | ⟨hx1, hx2⟩
    · have hbind : (fdiv (fmul (0 : ℚ) c6) 60).bind (fun y => fdiv (fmul y 60) c6)
          = some 0 := by
        rw [show fmul (0 : ℚ) c6 = 0 from by simp [fmul, roundDouble_zero], fdiv_eq h60,
          show roundDouble ((0 : ℚ) / 60) = 0 from by simp [roundDouble_zero],
          Option.some_bind, show fmul (0 : ℚ) 60 = 0 from by simp [fmul, roundDouble_zero],
          fdiv_eq c6_ne]
        simp [roundDouble_zero]
      exact ⟨0, hbind, by norm_num [qAbs]⟩
    · have hbind : (fdiv (fmul x c6) 60).bind (fun y => fdiv (fmul y 60) c6)
          = some (roundDouble (fmul (roundDouble (fmul x c6 / 60)) 60 / c6)) := by
        rw [fdiv_eq h60, Option.some_bind, fdiv_eq c6_ne]

      refine ⟨_, hbind, ?_⟩
      have h := roundtrip_four x c6 (60 : ℚ)⁻¹ 60 c6⁻¹
        (by have hc := c6_ne; field_simp; try ring)
        c6_lb c6_ub (by decide) (by decide) (by decide) (by decide)
        (by norm_num) (by norm_num) c6inv_nonneg hx1 hx2
      simp only [fmul, div_eq_mul_inv]
      exact h
  · -- uL/h (alias)
    rcases hx with rfl | ⟨hx1, hx2⟩
    · have hbind : (fdiv (fmul (0 : ℚ) c6) 60).bind (fun y => fdiv (fmul y 60) c6)
          = some 0 := by
        rw [show fmul (0 : ℚ) c6 = 0 from by simp [fmul, roundDouble_zero], fdiv_eq h60,
          show roundDouble ((0 : ℚ) / 60) = 0 from by simp [roundDouble_zero],
          Option.some_bind, show fmul (0 : ℚ) 60 = 0 from by simp [fmul, roundDouble_zero],
          fdiv_eq c6_ne]
        simp [roundDouble_zero]
      exact ⟨0, hbind, by norm_num [qAbs]⟩
    · have hbind : (fdiv (fmul x c6) 60).bind (fun y => fdiv (fmul y 60) c6)
          = some (roundDouble (fmul (roundDouble (fmul x c6 / 60)) 60 / c6)) := by
        rw [fdiv_eq h60, Option.some_bind, fdiv_eq c6_ne]

      refine ⟨_, hbind, ?_⟩
      have h := roundtrip_four x c6 (60 : ℚ)⁻¹ 60 c6⁻¹
        (by have hc := c6_ne; field_simp; try ring)
        c6_lb c6_ub (by decide) (by decide) (by decide) (by decide)
        (by norm_num) (by norm_num) c6inv_nonneg hx1 hx2
      simp only [fmul, div_eq_mul_inv]
      exact h

/-- Witness for C2 (amended), at the registry entry `mL/min` and `x = 1`. -/
theorem C2_witness :
    ∃ y, ((⟨fun x => fdiv x 1000, fun x => some (fmul x 1000)⟩ : UnitDef).to_base 1).bind
      (⟨fun x => fdiv x 1000, fun x => some (fmul x 1000)⟩ : UnitDef).from_base = some y ∧
      qAbs (y - 1) ≤ 1/1000000000 * 1 := by
  have hm : ("mL/min", (⟨fun x => fdiv x 1000, fun x => some (fmul x 1000)⟩ : UnitDef))
      ∈ UNITS := by
    unfold UNITS
    exact List.Mem.tail _ (List.Mem.head _)
  exact C2_amended _ hm 1 (Or.inr ⟨pow2_le_one (by norm_num), one_le_pow2 (by norm_num)⟩)

theorem mapO_some_of_forall {α β : Type _} (f : α → Option β) :
    ∀ l : List α, (∀ a ∈ l, ∃ b, f a = some b) → ∃ bs, mapO f l = some bs := by
  intro l
  induction l with
  | nil => exact fun _ => ⟨[], rfl⟩
  | cons a t ih =>
    intro h
    obtain ⟨b, hb⟩ := h a (List.mem_cons_self a t)
    obtain ⟨bs, hbs⟩ := ih (fun x hx => h x (List.mem_cons_of_mem a hx))
    exact ⟨b :: bs, by simp [mapO, hb, hbs]⟩

theorem mapO_eq_map {α β : Type _} (f : α → Option β) (g : α → β)
    (h : ∀ a, f a = some (g a)) : ∀ l, mapO f l = some (l.map g) := by
  intro l
  induction l with
  | nil => rfl
  | cons a t ih => simp [mapO, h, ih]

/-- Every display unit resolves in the registry, and its conversion
closures are total (the divisor constants are nonzero). -/
theorem display_total : ∀ ou ∈ DISPLAY_UNITS, ∃ ud, UNITS.lookup ou = some ud ∧
    (∀ x : ℚ, ∃ c, ud.to_base x = some c) ∧ (∀ x : ℚ, ∃ c, ud.from_base x = some c) := by
  have h1000 : (1000 : ℚ) ≠ 0 := by norm_num
  have h60 : (60 : ℚ) ≠ 0 := by norm_num
  intro ou hou
  simp only [DISPLAY_UNITS, List.mem_cons, List.not_mem_nil, or_false] at hou
  rcases hou with rfl | rfl | rfl | rfl | rfl | rfl | rfl
  · exact ⟨_, rfl, fun x => ⟨x, rfl⟩, fun x => ⟨x, rfl⟩⟩
  · exact ⟨_, rfl, fun x => ⟨_, fdiv_eq h1000⟩, fun x => ⟨_, rfl⟩⟩
  · exact ⟨_, rfl, fun x => ⟨_, rfl⟩, fun x => ⟨_, fdiv_eq c6_ne⟩⟩
  · exact ⟨_, rfl, fun x => ⟨_, rfl⟩, fun x => ⟨_, fdiv_eq c9_ne⟩⟩
  · exact ⟨_, rfl, fun x => ⟨_, fdiv_eq h60⟩, fun x => ⟨_, rfl⟩⟩
  · refine ⟨_, rfl, fun x => ⟨roundDouble (roundDouble (x / 1000) / 60), ?_⟩,
      fun x => ⟨_, rfl⟩⟩
    show (fdiv x 1000).bind (fun y => fdiv y 60) = _
    rw [fdiv_eq h1000, Option.some_bind, fdiv_eq h60]
  · exact ⟨_, rfl, fun x => ⟨_, fdiv_eq h60⟩, fun x => ⟨_, fdiv_eq c6_ne⟩⟩

/-- Every registry entry's `to_base` is total. -/
theorem to_base_total : ∀ p ∈ UNITS, ∀ x : ℚ, ∃ y, p.2.to_base x = some y := by
  have h1000 : (1000 : ℚ) ≠ 0 := by norm_num
  have h60 : (60 : ℚ) ≠ 0 := by norm_num
  intro p hp x
  simp only [UNITS, List.mem_cons, List.not_mem_nil, or_false] at hp
  rcases hp with rfl | rfl | rfl | rfl | rfl | rfl | rfl | rfl | rfl
  · exact ⟨x, rfl⟩
  · exact ⟨_, fdiv_eq h1000⟩
  · exact ⟨_, rfl⟩
  · exact ⟨_, rfl⟩
  · exact ⟨_, rfl⟩
  · exact ⟨_, fdiv_eq h60⟩
  · refine ⟨roundDouble (roundDouble (x / 1000) / 60), ?_⟩
    show (fdiv x 1000).bind (fun y => fdiv y 60) = _
    rw [fdiv_eq h1000, Option.some_bind, fdiv_eq h60]
  · exact ⟨_, fdiv_eq h60⟩
  · exact ⟨_, fdiv_eq h60⟩

/-- Every registry entry's `from_base` is total. -/
theorem from_base_total : ∀ p ∈ UNITS, ∀ x : ℚ, ∃ y, p.2.from_base x = some y := by
  intro p hp x
  simp only [UNITS, List.mem_cons, List.not_mem_nil, or_false] at hp
  rcases hp with rfl | rfl | rfl | rfl | rfl | rfl | rfl | rfl | rfl
  · exact ⟨x, rfl⟩
  · exact ⟨_, rfl⟩
  · exact ⟨_, fdiv_eq c6_ne⟩
  · exact ⟨_, fdiv_eq c6_ne⟩
  · exact ⟨_, fdiv_eq c9_ne⟩
  · exact ⟨_, rfl⟩
  · exact ⟨_, rfl⟩
  · exact ⟨_, fdiv_eq c6_ne⟩
  · exact ⟨_, fdiv_eq c6_ne⟩

/-- Looking up the key of a registry entry returns that entry. -/
theorem UNITS_lookup_self : ∀ p ∈ UNITS, UNITS.lookup p.1 = some p.2 := by
  intro p hp
  simp only [UNITS, List.mem_cons, List.not_mem_nil, or_false] at hp
  rcases hp with rfl | rfl | rfl | rfl | rfl | rfl | rfl | rfl | rfl <;> rfl

/-- C9: the conversion math is total.  For every unit in the registry,
every rational input `x` (zero and negative values included) and every
format configuration, `to_base` and `from_base` return a float (no
exception: the only possible error, `ZeroDivisionError`, needs a zero
divisor and every divisor in the registry is a nonzero constant), and the
whole single-value conversion succeeds for every display unit. -/
theorem C9_total : ∀ p ∈ UNITS, ∀ x : ℚ, ∀ cfg : FormatConfig,
    (∃ y, p.2.to_base x = some y) ∧ (∃ z, p.2.from_base x = some z) ∧
    (∃ r, convertSingle x p.1 cfg = some r) := by
  intro p hp x cfg
  refine ⟨to_base_total p hp x, from_base_total p hp x, ?_⟩
  obtain ⟨b, hb⟩ := to_base_total p hp x
  have hlook : UNITS.lookup p.1 = some p.2 := UNITS_lookup_self p hp
  obtain ⟨rows, hrows⟩ := mapO_some_of_forall
    (fun ou => (UNITS.lookup ou).bind fun ud =>
      (ud.from_base b).map fun c => (ou, c, fmt (some c) cfg)) DISPLAY_UNITS
    (by
      intro ou hou
      obtain ⟨ud, hud, _, hfb⟩ := display_total ou hou
      obtain ⟨c, hc⟩ := hfb b
      refine ⟨(ou, c, fmt (some c) cfg), ?_⟩
      show (UNITS.lookup ou).bind
        (fun ud => (ud.from_base b).map fun c => (ou, c, fmt (some c) cfg)) = _
      rw [hud, Option.some_bind, hc, Option.map_some'])
  refine ⟨(aliasGet p.1, rows), ?_⟩
  simp only [convertSingle]
  rw [hlook, Option.some_bind, hb, Option.some_bind, hrows, Option.some_bind]

/-- Witness for C9 at the registry head `L/min`, the negative input `-5`
and the default format configuration. -/
theorem C9_witness :
    (∃ y, (⟨fun x => some x, fun x => some x⟩ : UnitDef).to_base (-5) = some y) ∧
    (∃ z, (⟨fun x => some x, fun x => some x⟩ : UnitDef).from_base (-5) = some z) ∧
    (∃ r, convertSingle (-5) "L/min" ⟨3, true, 6⟩ = some r) := by
  have hm : ("L/min", (⟨fun x => some x, fun x => some x⟩ : UnitDef)) ∈ UNITS := by
    unfold UNITS
    exact List.Mem.head _
  exact C9_total _ hm (-5) ⟨3, true, 6⟩

/-- C8: alias equivalence.  For every value and every format configuration,
single-value conversion from the ASCII alias `uL/min` returns exactly the
same display unit, per-unit values and formatted strings as from `µL/min`,
and likewise `uL/h` versus `µL/h`. -/
theorem C8_alias : ∀ (v : ℚ) (cfg : FormatConfig),
    convertSingle v "uL/min" cfg = convertSingle v "µL/min" cfg ∧
    convertSingle v "uL/h" cfg = convertSingle v "µL/h" cfg := by
  intro v cfg
  exact ⟨rfl, rfl⟩

/-- Closed form of the batch parsing loop: values are the cleaned lines
that parse, in input order; warnings are the 1-based enumerated lines that
clean to nonempty text yet fail to parse, in input order. -/
theorem batchParseAux_spec : ∀ (lines : List String) (i : ℕ),
    batchParseAux lines i =
      (lines.filterMap (fun l => if cleanLine l = "" then none else parseFloat (cleanLine l)),
       (enumFrom i lines).filterMap (fun p => if cleanLine p.2 = "" then none else
         match parseFloat (cleanLine p.2) with
         | some _ => none
         | none => some p)) := by
  intro lines
  induction lines with
  | nil => intro i; rfl
  | cons l t ih =>
    intro i
    simp only [batchParseAux, enumFrom, List.filterMap_cons, ih (i + 1)]
    by_cases h1 : cleanLine l = ""
    · simp [h1]
    · cases hp : parseFloat (cleanLine l) <;> simp [h1, hp]

/-- C4: in batch processing every line is cleaned by trimming (and comma
removal); lines that clean to the empty string contribute neither a result
nor a warning; a nonempty cleaned line that fails numeric parsing
contributes exactly one warning carrying its 1-based line number and the
original raw text and no result value; parsing failure never aborts the
loop — the outcome is the `filterMap` of the whole input, so every
remaining line is still processed. -/
theorem C4_batch_loop : ∀ lines : List String,
    (batchParse lines).1 = lines.filterMap
      (fun l => if cleanLine l = "" then none else parseFloat (cleanLine l)) ∧
    (batchParse lines).2 = (enumFrom 1 lines).filterMap
      (fun p => if cleanLine p.2 = "" then none else
        match parseFloat (cleanLine p.2) with
        | some _ => none
        | none => some p) := by
  intro lines
  rw [batchParse, batchParseAux_spec lines 1]
  exact ⟨rfl, rfl⟩

/-- C5: batch result values are the successfully parsed lines in input
order (a `filterMap` of the input, never sorted or reordered), and on the
concrete input `["1", "abc", "2"]` the results are exactly `[1, 2]` in that
order with exactly one warning, for line 2 with raw text `"abc"`. -/
theorem C5_batch_order :
    (∀ lines : List String, (batchParse lines).1 = lines.filterMap
      (fun l => if cleanLine l = "" then none else parseFloat (cleanLine l))) ∧
    batchParse ["1", "abc", "2"] = ([1, 2], [(2, "abc")]) := by
  constructor
  · intro lines
    rw [batchParse, batchParseAux_spec lines 1]
  · decide

/-- C10 is false in its second part: the line `", ,"` consists only of
commas and whitespace, but stripping happens before comma removal, so the
cleaned line is `" "` (not empty) and the line is warned about rather than
silently skipped. -/
theorem C10_counterexample :
    (", ,").data.all (fun c => c == ',' || isPyWS c) = true ∧
    cleanLine ", ," ≠ "" ∧
    batchParse [", ,"] = ([], [(1, ", ,")]) := by
  exact ⟨by decide, by decide, by decide⟩

/-- C10 (amended): comma stripping removes every comma anywhere in the
line — `"1,2"` parses as `12` — and no comma ever reaches the parser; a
line of commas with only leading/trailing whitespace cleans to empty and is
skipped silently; but whitespace *between* commas survives (trimming
happens before comma removal), fails to parse, and is warned about. -/
theorem C10_amended :
    batchParse ["1,2"] = ([12], []) ∧
    batchParse [" ,, "] = ([], []) ∧
    batchParse [", ,"] = ([], [(1, ", ,")]) ∧
    ∀ l : String, (cleanLine l).data.all (fun c => !(c == ',')) = true := by
  refine ⟨by decide, by decide, by decide, ?_⟩
  intro l
  rw [List.all_eq_true]
  intro c hc
  exact (List.mem_filter.mp hc).2

/-- C7 is false for blank input: when the text area strips to empty the
whole batch block is skipped — nothing at all is rendered, which is not the
"no valid numeric input" informational state. -/
theorem C7_counterexample :
    batchRender " " "µL/min" ⟨3, true, 6⟩ = some BatchView.blank ∧
    BatchView.blank ≠ BatchView.noValid [] := by
  exact ⟨by decide, by decide⟩

/-- C7 (amended): if the raw batch text strips to empty, the batch block
renders nothing at all (zero rows, zero warnings and no message — the
`blank` outcome, not the informational one); if it strips to nonempty and
zero lines parse, the block shows the collected warnings and the "no valid
numeric input" informational message instead of a table. -/
theorem C7_amended : ∀ (raw batchUnit : String) (cfg : FormatConfig),
    (pyStrip raw = "" → batchRender raw batchUnit cfg = some BatchView.blank) ∧
    (pyStrip raw ≠ "" → (batchParse (pySplitlines raw)).1 = [] →
      batchRender raw batchUnit cfg
        = some (BatchView.noValid (batchParse (pySplitlines raw)).2)) := by
  intro raw u cfg
  constructor
  · intro h
    simp [batchRender, h]
  · intro h hv
    rcases hpp : batchParse (pySplitlines raw) with ⟨values, warnings⟩
    rw [hpp] at hv
    simp only at hv
    subst hv
    simp only [batchRender, if_neg h, hpp, List.isEmpty_nil, if_pos]

/-- Witness for C7 (amended) on the raw input `"x"`: nonempty after
stripping, no line parses, so the info state with the single warning. -/
theorem C7_witness :
    batchRender "x" "L/min" ⟨3, true, 6⟩
      = some (BatchView.noValid (batchParse (pySplitlines "x")).2) :=
  (C7_amended "x" "L/min" ⟨3, true, 6⟩).2 (by decide) (by decide)

/-- C1 is false as stated: converting `1.0` from `L/min` does *not* yield
exactly `1e9` at `nL/min` — the code computes `1.0 / 1e-9`, and the IEEE
double `1e-9` is not exactly 10⁻⁹, so the quotient rounds to the double one
ulp *below* 10⁹ (`999999999.9999999`).  The claimed table with
`nL/min ↦ 1e9` is therefore not the produced table. -/
theorem C1_counterexample :
    (convertSingle 1 "L/min" ⟨3, true, 6⟩).map (fun p => p.2.map (fun r => (r.1, r.2.1)))
      ≠ some [("L/min", (1 : ℚ)), ("mL/min", 1000), ("µL/min", 1000000),
              ("nL/min", 1000000000), ("L/h", 60), ("mL/h", 60000),
              ("µL/h", 60000000)] := by
  decide

/-- C1 (amended): converting `1.0` from `L/min` yields exactly
`{L/min: 1, mL/min: 1000, µL/min: 1e6, L/h: 60, mL/h: 60000, µL/h: 6e7}` —
those quotients and products round exactly — while `nL/min` yields
`8388607999999999/8388608 = 999999999.9999999`, the binary64 value one ulp
below `1e9` (because `from_base` divides by the double `1e-9` rather than
multiplying by `1e9`). -/
theorem C1_amended :
    (convertSingle 1 "L/min" ⟨3, true, 6⟩).map (fun p => p.2.map (fun r => (r.1, r.2.1)))
      = some [("L/min", (1 : ℚ)), ("mL/min", 1000), ("µL/min", 1000000),
              ("nL/min", 8388607999999999/8388608), ("L/h", 60), ("mL/h", 60000),
              ("µL/h", 60000000)] ∧
    (8388607999999999 / 8388608 : ℚ) ≠ 1000000000 := by
  exact ⟨by decide, by decide⟩

/-- C3: `fmt` of a NaN input is the empty string; with `useSci` on, `fmt`
renders scientific notation (with `decimals` mantissa digits) exactly when
`|x| > 10^thresholdPower` or `x ≠ 0` and `|x|` is below the float
`10 ** (-thresholdPower)`, and fixed-point with exactly `decimals` digits
after the point otherwise (also whenever `useSci` is off); in particular,
with `decimals = 3, useSci = true, thresholdPower = 6`:
`fmt(999999.9) = "999999.900"` (fixed-point — the double `999999.9` is not
above `10^6`), `fmt(1000001) = "1.000e+06"` (scientific with 3 mantissa
decimals), and `fmt(0) = "0.000"` (zero is never treated as small). -/
theorem C3_fmt :
    (∀ d t : ℕ, fmt none ⟨d, true, t⟩ = "" ∧ fmt none ⟨d, false, t⟩ = "") ∧
    (∀ (x : ℚ) (d t : ℕ), (qAbs x > (10 : ℚ) ^ t ∨ (x ≠ 0 ∧ qAbs x < negPow10 t)) →
      fmt (some x) ⟨d, true, t⟩ = sciString x d) ∧
    (∀ (x : ℚ) (d t : ℕ), ¬ (qAbs x > (10 : ℚ) ^ t ∨ (x ≠ 0 ∧ qAbs x < negPow10 t)) →
      fmt (some x) ⟨d, true, t⟩ = fixedString x d) ∧
    (∀ (x : ℚ) (d t : ℕ), fmt (some x) ⟨d, false, t⟩ = fixedString x d) ∧
    fmt (some (roundDouble (9999999/10))) ⟨3, true, 6⟩ = "999999.900" ∧
    fmt (some 1000001) ⟨3, true, 6⟩ = "1.000e+06" ∧
    fmt (some 0) ⟨3, true, 6⟩ = "0.000" := by
  refine ⟨fun d t => ⟨rfl, rfl⟩, ?_, ?_, ?_, by decide, by decide, by decide⟩
  · intro x d t h
    simp only [fmt]
    rw [if_pos ⟨trivial, h⟩]
  · intro x d t h
    simp only [fmt]
    rw [if_neg ?_]
    rintro ⟨-, hc⟩
    exact h hc
  · intro x d t
    simp only [fmt]
    rw [if_neg ?_]
    rintro ⟨hs, -⟩
    exact Bool.false_ne_true hs

/-- Witness for C3 at `x = 2000000` (above the threshold `10^6`): the
scientific branch is taken. -/
theorem C3_witness : fmt (some 2000000) ⟨3, true, 6⟩ = sciString 2000000 3 :=
  C3_fmt.2.1 2000000 3 6 (Or.inl (by decide))

theorem lookup_mem {α β : Type _} [BEq α] [LawfulBEq α] {l : List (α × β)} {a : α} {b : β} :
    l.lookup a = some b → (a, b) ∈ l := by
  induction l with
  | nil => intro h; simp [List.lookup] at h
  | cons p t ih =>
    rcases p with ⟨k, v⟩
    intro h
    rw [List.lookup] at h
    cases hbeq : (a == k) with
    | true =>
      rw [hbeq] at h
      obtain rfl := Option.some.inj h
      have : a = k := eq_of_beq hbeq
      subst this
      exact List.Mem.head _
    | false =>
      rw [hbeq] at h
      exact List.Mem.tail _ (ih h)

theorem mapO_length {α β : Type _} (f : α → Option β) :
    ∀ {l : List α} {bs : List β}, mapO f l = some bs → bs.length = l.length := by
  intro l
  induction l with
  | nil =>
    intro bs h
    simp only [mapO, Option.some.injEq] at h
    subst h; rfl
  | cons a t ih =>
    intro bs h
    simp only [mapO] at h
    cases hfa : f a with
    | none => rw [hfa] at h; simp at h
    | some b =>
      rw [hfa, Option.some_bind] at h
      cases hmt : mapO f t with
      | none => rw [hmt] at h; simp at h
      | some ts =>
        rw [hmt, Option.map_some'] at h
        obtain rfl := (Option.some.inj h).symm
        simp [ih hmt]

theorem mapO_forall2 {α β : Type _} (f : α → Option β) :
    ∀ {l : List α} {bs : List β}, mapO f l = some bs →
      List.Forall₂ (fun a b => f a = some b) l bs := by
  intro l
  induction l with
  | nil =>
    intro bs h
    simp only [mapO, Option.some.injEq] at h
    subst h
    exact List.Forall₂.nil
  | cons a t ih =>
    intro bs h
    simp only [mapO] at h
    cases hfa : f a with
    | none => rw [hfa] at h; simp at h
    | some b =>
      rw [hfa, Option.some_bind] at h
      cases hmt : mapO f t with
      | none => rw [hmt] at h; simp at h
      | some ts =>
        rw [hmt, Option.map_some'] at h
        obtain rfl := (Option.some.inj h).symm
        exact List.Forall₂.cons hfa (ih hmt)

theorem forall2_mem_right {α β : Type _} {R : α → β → Prop} :
    ∀ {l : List α} {bs : List β}, List.Forall₂ R l bs → ∀ b ∈ bs, ∃ a ∈ l, R a b := by
  intro l bs h
  induction h with
  | nil => intro b hb; simp at hb
  | cons hr _ ih =>
    intro b hb
    rcases List.mem_cons.mp hb with rfl | hb'
    · exact ⟨_, List.mem_cons_self _ _, hr⟩
    · obtain ⟨a, ha, hra⟩ := ih b hb'
      exact ⟨a, List.mem_cons_of_mem _ ha, hra⟩

theorem forall2_map_eq {α β γ : Type _} {R : α → β → Prop} (g : β → γ) (h : α → γ) :
    ∀ {l : List α} {bs : List β}, List.Forall₂ R l bs →
      (∀ a ∈ l, ∀ b, R a b → g b = h a) → bs.map g = l.map h := by
  intro l bs hf
  induction hf with
  | nil => intro _; rfl
  | cons hr hrest ih =>
    intro hpt
    simp only [List.map_cons]
    rw [hpt _ (List.mem_cons_self _ _) _ hr,
      ih (fun a ha b hb => hpt a (List.mem_cons_of_mem _ ha) b hb)]

/-- Shape of the pair of columns produced for one display unit: the raw
numeric column named after the unit, then the formatted column named
`<unit> (fmt)`, both with one cell per base value. -/
theorem displayCols_shape (cfg : FormatConfig) (baseVals : List ℚ) :
    ∀ ou ∈ DISPLAY_UNITS, ∀ cols2 : List (String × List Cell),
      ((UNITS.lookup ou).bind fun ud =>
        (mapO ud.from_base baseVals).map fun conv =>
          [(ou, conv.map Cell.num),
           (ou ++ " (fmt)", conv.map (fun x => Cell.str (fmt (some x) cfg)))]) = some cols2 →
      cols2.map Prod.fst = [ou, ou ++ " (fmt)"] ∧
      ∀ col ∈ cols2, col.2.length = baseVals.length := by
  intro ou hou cols2 hf
  simp only [DISPLAY_UNITS, List.mem_cons, List.not_mem_nil, or_false] at hou
  have hfin : ∀ g : ℚ → ℚ,
      cols2 = [(ou, (baseVals.map g).map Cell.num),
               (ou ++ " (fmt)", (baseVals.map g).map (fun x => Cell.str (fmt (some x) cfg)))] →
      cols2.map Prod.fst = [ou, ou ++ " (fmt)"] ∧
      ∀ col ∈ cols2, col.2.length = baseVals.length := by
    rintro g rfl
    refine ⟨rfl, ?_⟩
    intro col hcol
    rcases List.mem_cons.mp hcol with rfl | hcol2
    · simp
    · rcases List.mem_cons.mp hcol2 with rfl | hcol3
      · simp
      · simp at hcol3
  rcases hou with rfl | rfl | rfl | rfl | rfl | rfl | rfl
  · rw [show UNITS.lookup "L/min" = some ⟨fun x => some x, fun x => some x⟩ from rfl,
      Option.some_bind, mapO_eq_map _ (fun x => x) (fun a => rfl) baseVals,
      Option.map_some'] at hf
    exact hfin _ (Option.some.inj hf).symm
  · rw [show UNITS.lookup "mL/min"
        = some ⟨fun x => fdiv x 1000, fun x => some (fmul x 1000)⟩ from rfl,
      Option.some_bind, mapO_eq_map _ (fun x => fmul x 1000) (fun a => rfl) baseVals,
      Option.map_some'] at hf
    exact hfin _ (Option.some.inj hf).symm
  · rw [show UNITS.lookup "µL/min"
        = some ⟨fun x => some (fmul x c6), fun x => fdiv x c6⟩ from rfl,
      Option.some_bind,
      mapO_eq_map _ (fun x => roundDouble (x / c6)) (fun a => fdiv_eq c6_ne) baseVals,
      Option.map_some'] at hf
    exact hfin _ (Option.some.inj hf).symm
  · rw [show UNITS.lookup "nL/min"
        = some ⟨fun x => some (fmul x c9), fun x => fdiv x c9⟩ from rfl,
      Option.some_bind,
      mapO_eq_map _ (fun x => roundDouble (x / c9)) (fun a => fdiv_eq c9_ne) baseVals,
      Option.map_some'] at hf
    exact hfin _ (Option.some.inj hf).symm
  · rw [show UNITS.lookup "L/h"
        = some ⟨fun x => fdiv x 60, fun x => some (fmul x 60)⟩ from rfl,
      Option.some_bind, mapO_eq_map _ (fun x => fmul x 60) (fun a => rfl) baseVals,
      Option.map_some'] at hf
    exact hfin _ (Option.some.inj hf).symm
  · rw [show UNITS.lookup "mL/h"
        = some ⟨fun x => (fdiv x 1000).bind (fun y => fdiv y 60),
                fun x => some (fmul (fmul x 60) 1000)⟩ from rfl,
      Option.some_bind,
      mapO_eq_map _ (fun x => fmul (fmul x 60) 1000) (fun a => rfl) baseVals,
      Option.map_some'] at hf
    exact hfin _ (Option.some.inj hf).symm
  · rw [show UNITS.lookup "µL/h"
        = some ⟨fun x => fdiv (fmul x c6) 60, fun x => fdiv (fmul x 60) c6⟩ from rfl,
      Option.some_bind,
      mapO_eq_map _ (fun x => roundDouble (fmul x 60 / c6))
        (fun a => fdiv_eq c6_ne) baseVals,
      Option.map_some'] at hf
    exact hfin _ (Option.some.inj hf).symm

/-- C6 is false as stated: the CSV export of a one-line batch (`to_csv`
over the full dataframe) has header columns `Input, Input Unit`, then for
each display unit a *raw numeric* column and the formatted `(fmt)` column
interleaved — not just the formatted columns claimed. -/
theorem C6_counterexample :
    (dfBatch [1] "L/min" ⟨3, true, 6⟩).map (fun df => df.map Prod.fst) =
      some ["Input", "Input Unit", "L/min", "L/min (fmt)", "mL/min", "mL/min (fmt)",
            "µL/min", "µL/min (fmt)", "nL/min", "nL/min (fmt)", "L/h", "L/h (fmt)",
            "mL/h", "mL/h (fmt)", "µL/h", "µL/h (fmt)"] ∧
    (["Input", "Input Unit", "L/min", "L/min (fmt)", "mL/min", "mL/min (fmt)",
      "µL/min", "µL/min (fmt)", "nL/min", "nL/min (fmt)", "L/h", "L/h (fmt)",
      "mL/h", "mL/h (fmt)", "µL/h", "µL/h (fmt)"] ≠
      "Input" :: "Input Unit" :: DISPLAY_UNITS.map (fun u => u ++ " (fmt)")) := by
  exact ⟨by decide, by decide⟩

/-- C6 (amended): for every batch (any parsed values, any registry unit,
any format configuration) the exported dataframe exists and its header row
is exactly `Input,Input Unit` followed, for each display unit in order, by
the raw numeric column and then the `<unit> (fmt)` column; the first column
holds the parsed input values in input order, and every column has exactly
one cell per parsed input line. -/
theorem C6_amended : ∀ (values : List ℚ) (batchUnit : String) (cfg : FormatConfig)
    (u : UnitDef), UNITS.lookup batchUnit = some u →
    ∃ df, dfBatch values batchUnit cfg = some df ∧
      df.map Prod.fst = ["Input", "Input Unit", "L/min", "L/min (fmt)", "mL/min",
        "mL/min (fmt)", "µL/min", "µL/min (fmt)", "nL/min", "nL/min (fmt)", "L/h",
        "L/h (fmt)", "mL/h", "mL/h (fmt)", "µL/h", "µL/h (fmt)"] ∧
      csvHeader df = "Input,Input Unit,L/min,L/min (fmt),mL/min,mL/min (fmt),µL/min,µL/min (fmt),nL/min,nL/min (fmt),L/h,L/h (fmt),mL/h,mL/h (fmt),µL/h,µL/h (fmt)" ∧
      df.head? = some ("Input", values.map Cell.num) ∧
      ∀ col ∈ df, col.2.length = values.length := by
  intro values batchUnit cfg u hlook
  have hmem : (batchUnit, u) ∈ UNITS := lookup_mem hlook
  obtain ⟨baseVals, hbv⟩ :=
    mapO_some_of_forall u.to_base values (fun v _ => to_base_total (batchUnit, u) hmem v)
  have hbvlen : baseVals.length = values.length := mapO_length u.to_base hbv
  obtain ⟨unitCols, hcols⟩ := mapO_some_of_forall
    (fun ou => (UNITS.lookup ou).bind fun ud =>
      (mapO ud.from_base baseVals).map fun conv =>
        [(ou, conv.map Cell.num),
         (ou ++ " (fmt)", conv.map (fun x => Cell.str (fmt (some x) cfg)))])
    DISPLAY_UNITS
    (by
      intro ou hou
      obtain ⟨ud, hud, _, hfb⟩ := display_total ou hou
      obtain ⟨conv, hconv⟩ := mapO_some_of_forall ud.from_base baseVals (fun b _ => hfb b)
      refine ⟨[(ou, conv.map Cell.num),
               (ou ++ " (fmt)", conv.map (fun x => Cell.str (fmt (some x) cfg)))], ?_⟩
      show (UNITS.lookup ou).bind (fun ud =>
        (mapO ud.from_base baseVals).map fun conv =>
          [(ou, conv.map Cell.num),
           (ou ++ " (fmt)", conv.map (fun x => Cell.str (fmt (some x) cfg)))]) = _
      rw [hud, Option.some_bind, hconv, Option.map_some'])
  have hf2 := mapO_forall2 _ hcols
  have hdf : dfBatch values batchUnit cfg =
      some ([("Input", values.map Cell.num),
             ("Input Unit", values.map (fun _ => Cell.str (aliasGet batchUnit)))] ++
        unitCols.flatten) := by
    simp only [dfBatch]
    rw [hlook, Option.some_bind, hbv, Option.some_bind, hcols, Option.some_bind]
  have hnames : unitCols.map (List.map Prod.fst)
      = DISPLAY_UNITS.map (fun ou => [ou, ou ++ " (fmt)"]) :=
    forall2_map_eq _ _ hf2
      (fun ou hou cols2 hf => (displayCols_shape cfg baseVals ou hou cols2 hf).1)
  refine ⟨_, hdf, ?_, ?_, rfl, ?_⟩
  · rw [List.map_append, List.map_flatten, hnames]
    simp only [List.map_cons, List.map_nil]
    decide
  · show joinComma (List.map Prod.fst _) = _
    rw [List.map_append, List.map_flatten, hnames]
    simp only [List.map_cons, List.map_nil]
    decide
  · intro col hcol
    rcases List.mem_append.mp hcol with hin | hflat
    · rcases List.mem_cons.mp hin with rfl | hin2
      · simp
      · rcases List.mem_cons.mp hin2 with rfl | hin3
        · simp
        · simp at hin3
    · obtain ⟨cols2, h2, hc2⟩ := List.mem_flatten.mp hflat
      obtain ⟨ou, hou, hfo⟩ := forall2_mem_right hf2 cols2 h2
      have := (displayCols_shape cfg baseVals ou hou cols2 hfo).2 col hc2
      rw [this, hbvlen]

/-- Witness for C6 (amended), at the one-value batch `[1]` with unit
`µL/min`. -/
theorem C6_witness :
    ∃ df, dfBatch [1] "µL/min" ⟨3, true, 6⟩ = some df ∧
      df.map Prod.fst = ["Input", "Input Unit", "L/min", "L/min (fmt)", "mL/min",
        "mL/min (fmt)", "µL/min", "µL/min (fmt)", "nL/min", "nL/min (fmt)", "L/h",
        "L/h (fmt)", "mL/h", "mL/h (fmt)", "µL/h", "µL/h (fmt)"] ∧
      csvHeader df = "Input,Input Unit,L/min,L/min (fmt),mL/min,mL/min (fmt),µL/min,µL/min (fmt),nL/min,nL/min (fmt),L/h,L/h (fmt),mL/h,mL/h (fmt),µL/h,µL/h (fmt)" ∧
      df.head? = some ("Input", [Cell.num 1]) ∧
      ∀ col ∈ df, col.2.length = 1 :=
  C6_amended [1] "µL/min" ⟨3, true, 6⟩
    ⟨fun x => some (fmul x c6), fun x => fdiv x c6⟩ rfl

